import Mathlib

/-!
Verification of the `tokyo` profile engine (`pkg/profile/profile.go`).

The Go package manages named snapshots ("profiles") of a tool's live
configuration files.  We give a shallow embedding of its state and of the
operations `ValidateProfileName`, `List`, `Save`, `Delete`, `Current`,
`Switch`, `Exists` together with the helpers `matches`, `filesEqual`,
`ensureRegularFile`, `ensureRegularFileIfExists`, `copyFile`,
`readCurrentProfile`, `writeCurrentProfile`, `stageProfileFiles`,
`backupCurrentFiles`, `restoreRollback`, `rollbackSwitch`.

Modelling decisions, all taken from the source:
* A filesystem node at a managed path is a regular file with byte content
  (modelled as a `String`), a symlink, or a directory.  Symlink targets are
  never read by the code (every symlink sighting is a fatal error), so the
  model does not record them.  Other node kinds (sockets, fifos) are not
  modelled; the corresponding `ErrExpectedRegularFile` branch is therefore
  unreachable in the model.
* The state records, per tool, the live config files (keyed by their
  home-relative path), the profiles directory (absent or a map from profile
  name to the profile directory's contents, keyed by basename), and the
  `current.json` marker file.  The marker file, when present, is assumed to
  hold the canonical serialization produced by `writeCurrentProfile`
  (a one-field JSON object), so it is recorded by the profile name it
  stores; "file absent" (`none`) is distinguished from "file holding the
  empty name" (`some ""`), which is what byte-level marker claims are about.
  A separate node-level refinement (`MarkerNode`, `readMarkerNode`,
  `writeMarkerCheck`) additionally represents a symlink or directory at the
  marker path itself, to settle how `readCurrentProfile`'s `os.ReadFile`
  (which follows symlinks unchecked) differs from `writeCurrentProfile`'s
  `rejectNonRegularFile` check.
* `Switch` failure injection: the Go failure points the claims talk about
  (an `os.Rename` of a staged file failing during commit, the marker write
  failing, and failures inside the rollback itself) are modelled by a
  `FailSpec` of booleans consulted exactly at the corresponding points.
* Go `len` on a string is its UTF-8 byte count; embedded as `utf8Len`.
  Go `sort.Strings` sorts byte-wise lexicographically, which for valid
  UTF-8 agrees with code-point-wise lexicographic order; embedded as
  `strLe` on the character sequences.
-/

namespace Tokyo

/-- Error kinds of the package (`profile.go` sentinel errors plus the wrappers
`fmt.Errorf("switch failed: %w", err)` and `errors.Join`).  `ioError` stands
for an injected operating-system failure (`TransientIOError` in the spec). -/
inductive Err where
  | validation (msg : String)
  | notExist
  | symlinkNotAllowed (path : String)
  | expectedFileIsDir (path : String)
  | profileAlreadyExists (profile : String)
  | profileNotFound (profile : String)
  | configFileNotFound (path : String)
  | profileMissingFile (basename : String)
  | ioError (msg : String)
  | switchFailed (orig : Err)
  | joined (errs : List Err)

/-- A filesystem node at a managed path. -/
inductive Entry where
  | file (content : String)
  | symlink
  | dir
deriving DecidableEq

/-! ### Association lists (finite maps path → node, name → directory) -/

def lookupKey {α : Type} : List (String × α) → String → Option α
  | [], _ => none
  | (k, v) :: rest, k' => if k = k' then some v else lookupKey rest k'

def setKey {α : Type} : List (String × α) → String → α → List (String × α)
  | [], k, v => [(k, v)]
  | (k', v') :: rest, k, v =>
    if k' = k then (k, v) :: rest else (k', v') :: setKey rest k v

def delKey {α : Type} : List (String × α) → String → List (String × α)
  | [], _ => []
  | (k', v') :: rest, k =>
    if k' = k then delKey rest k else (k', v') :: delKey rest k

/-! ### Strings: Go `len`, `strings.TrimSpace`, `filepath.Base`, byte order -/

/-- UTF-8 encoded size in bytes of one code point (Go `utf8.RuneLen`). -/
def utf8CharSize (c : Char) : Nat :=
  if c.toNat ≤ 0x7F then 1
  else if c.toNat ≤ 0x7FF then 2
  else if c.toNat ≤ 0xFFFF then 3
  else 4

/-- Go `len` of a string: its UTF-8 byte count. -/
def utf8Len (l : List Char) : Nat := (l.map utf8CharSize).sum

/-- `unicode.IsSpace`: the white space characters Go's `strings.TrimSpace`
strips (ASCII spacing plus the Unicode `Zs`-category and NEL), by code
point (Go compares runes, i.e. code points). -/
def goIsSpace (c : Char) : Bool :=
  c.toNat = 32 || c.toNat = 9 || c.toNat = 10 || c.toNat = 11 ||
  c.toNat = 12 || c.toNat = 13 || c.toNat = 0x85 || c.toNat = 0xA0 ||
  c.toNat = 0x1680 || (0x2000 ≤ c.toNat && c.toNat ≤ 0x200A) ||
  c.toNat = 0x2028 || c.toNat = 0x2029 || c.toNat = 0x202F ||
  c.toNat = 0x205F || c.toNat = 0x3000

/-- `strings.TrimSpace` on the character sequence. -/
def trimSpace (l : List Char) : List Char :=
  ((l.dropWhile goIsSpace).reverse.dropWhile goIsSpace).reverse

/-- `strings.HasSuffix` on character sequences. -/
def hasSuffixL (l suf : List Char) : Bool :=
  decide (l.reverse.take suf.length = suf.reverse)

/-- `filepath.Base` (Unix rules, no volume names): strip trailing slashes,
then keep the last path component; `""` gives `"."`, all-slashes gives
`"/"`. -/
def filepathBaseL (l : List Char) : List Char :=
  if l = [] then ['.']
  else if l.all (· = '/') then ['/']
  else ((l.reverse.dropWhile (· = '/')).takeWhile (· ≠ '/')).reverse

def base (p : String) : String := ⟨filepathBaseL p.toList⟩

/-- Byte-wise lexicographic order of Go's `sort.Strings` (on the decoded
code points; UTF-8 byte order coincides with code point order). -/
def strLeChars : List Char → List Char → Bool
  | [], _ => true
  | _ :: _, [] => false
  | a :: as, b :: bs =>
    if a < b then true else if b < a then false else strLeChars as bs

def strLe (a b : String) : Bool := strLeChars a.toList b.toList

/-- The ordering proposition used to state `List`'s sortedness contract. -/
def StrLE (a b : String) : Prop := strLe a b = true

instance : DecidableRel StrLE := fun a b => by
  unfold StrLE; infer_instance

instance : IsTotal String StrLE := by
  constructor
  intro a b
  show strLeChars a.toList b.toList = true ∨ strLeChars b.toList a.toList = true
  generalize a.toList = x
  generalize b.toList = y
  induction x generalizing y with
  | nil => left; rfl
  | cons c cs ih =>
    cases y with
    | nil => right; rfl
    | cons d ds =>
      by_cases hcd : c < d
      · left; simp [strLeChars, hcd]
      · by_cases hdc : d < c
        · right; simp [strLeChars, hdc]
        · have he : c = d := le_antisymm (not_lt.mp hdc) (not_lt.mp hcd)
          subst he
          rcases ih ds with h | h
          · left; simpa [strLeChars, lt_irrefl] using h
          · right; simpa [strLeChars, lt_irrefl] using h

instance : IsTrans String StrLE := by
  constructor
  intro a b c
  show strLeChars a.toList b.toList = true → strLeChars b.toList c.toList = true →
    strLeChars a.toList c.toList = true
  generalize a.toList = x
  generalize b.toList = y
  generalize c.toList = z
  induction x generalizing y z with
  | nil => intro _ _; rfl
  | cons u us ih =>
    intro h1 h2
    cases y with
    | nil => simp [strLeChars] at h1
    | cons v vs =>
      cases z with
      | nil => simp [strLeChars] at h2
      | cons w ws =>
        simp only [strLeChars] at h1 h2 ⊢
        by_cases huv : u < v
        · by_cases hvw : v < w
          · simp [lt_trans huv hvw]
          · by_cases hwv : w < v
            · simp [hvw, hwv] at h2
            · have he : v = w := le_antisymm (not_lt.mp hwv) (not_lt.mp hvw)
              subst he
              simp [huv]
        · by_cases hvu : v < u
          · simp [huv, hvu] at h1
          · have he : u = v := le_antisymm (not_lt.mp hvu) (not_lt.mp huv)
            subst he
            by_cases huw : u < w
            · simp [huw]
            · by_cases hwu : w < u
              · simp [huw, hwu] at h2
              · have he2 : u = w := le_antisymm (not_lt.mp hwu) (not_lt.mp huw)
                subst he2
                simp only [lt_irrefl, if_false] at h1 h2 ⊢
                exact ih vs ws h1 h2

/-! ### Tool descriptors and state -/

/-- `profile.Tool`. -/
structure Tool where
  Name : String
  DisplayName : String
  ConfigRelPaths : List String

/-- `ClaudeTool()`. -/
def ClaudeTool : Tool :=
  { Name := "claude", DisplayName := "Claude Code",
    ConfigRelPaths := [".claude/settings.json"] }

/-- `CodexTool()`. -/
def CodexTool : Tool :=
  { Name := "codex", DisplayName := "Codex",
    ConfigRelPaths := [".codex/config.toml", ".codex/auth.json"] }

/-- The managed on-disk state for one tool: live config files (keyed by
home-relative path), the profiles directory (`none` while it does not exist
yet), and the `current.json` marker file (`none` while absent, otherwise
the profile name it canonically stores). -/
structure ProfState where
  live : List (String × Entry)
  profiles : Option (List (String × List (String × Entry)))
  marker : Option String
deriving DecidableEq

def lookupProfile (s : ProfState) (name : String) :
    Option (List (String × Entry)) :=
  match s.profiles with
  | none => none
  | some ps => lookupKey ps name

/-- `os.MkdirAll(profilesDir)` followed by writing one profile directory. -/
def setProfile (s : ProfState) (name : String) (d : List (String × Entry)) :
    ProfState :=
  { s with profiles := some (setKey (s.profiles.getD []) name d) }

/-- `os.RemoveAll(profileDir)`. -/
def removeProfile (s : ProfState) (name : String) : ProfState :=
  { s with profiles := s.profiles.map (fun ps => delKey ps name) }

/-- The profile name denoted by the marker: a missing `current.json` reads
as the empty name. -/
def markerVal (s : ProfState) : String := s.marker.getD ""

/-! ### Filesystem safety primitives (`ensureRegularFile` etc.) -/

/-- `ensureRegularFile`: `os.Lstat` then reject symlinks and directories.
The `ErrExpectedRegularFile` branch (sockets, fifos, devices) has no
counterpart in the model's node type. -/
def ensureRegularFile (path : String) (e : Option Entry) : Except Err Unit :=
  match e with
  | none => .error .notExist
  | some .symlink => .error (.symlinkNotAllowed path)
  | some .dir => .error (.expectedFileIsDir path)
  | some (.file _) => .ok ()

/-- `ensureRegularFileIfExists`: as above but a missing path is
`(existed = false, no error)`. -/
def ensureRegularFileIfExists (path : String) (e : Option Entry) :
    Except Err Bool :=
  match e with
  | none => .ok false
  | some .symlink => .error (.symlinkNotAllowed path)
  | some .dir => .error (.expectedFileIsDir path)
  | some (.file _) => .ok true

/-- `rejectNonRegularFile`. -/
def rejectNonRegularFile (path : String) (e : Option Entry) :
    Except Err Unit :=
  match ensureRegularFileIfExists path e with
  | .error er => .error er
  | .ok _ => .ok ()

/-- `copyFile src dst`: `ensureRegularFile(src)`, create the parent
directory, `rejectNonRegularFile(dst)`, then stream the bytes; the model
returns the bytes that get written to `dst`. -/
def copyFileE (srcPath dstPath : String) (src dst : Option Entry) :
    Except Err String :=
  match src with
  | none => .error .notExist
  | some .symlink => .error (.symlinkNotAllowed srcPath)
  | some .dir => .error (.expectedFileIsDir srcPath)
  | some (.file c) =>
    match rejectNonRegularFile dstPath dst with
    | .error er => .error er
    | .ok _ => .ok c

/-- `filesEqual`: both sides must be regular files; equal size and equal
SHA-256 content hash is byte equality (the model compares the bytes). -/
def filesEqualM (pathA pathB : String) (a b : Option Entry) :
    Except Err Bool :=
  match a with
  | none => .error .notExist
  | some .symlink => .error (.symlinkNotAllowed pathA)
  | some .dir => .error (.expectedFileIsDir pathA)
  | some (.file ca) =>
    match b with
    | none => .error .notExist
    | some .symlink => .error (.symlinkNotAllowed pathB)
    | some .dir => .error (.expectedFileIsDir pathB)
    | some (.file cb) => .ok (decide (ca = cb))

/-! ### `ValidateProfileName` -/

/-- The character loop at the end of `ValidateProfileName`: a rune above
`0x7f` is rejected as non-ASCII, then only ASCII letters, digits, `-`
and `_` are allowed.  Go compares runes, i.e. code points:
`a..z = 97..122`, `A..Z = 65..90`, `0..9 = 48..57`, `- = 45`, `_ = 95`. -/
def allowedChar (c : Char) : Bool :=
  (97 ≤ c.toNat && c.toNat ≤ 122) || (65 ≤ c.toNat && c.toNat ≤ 90) ||
  (48 ≤ c.toNat && c.toNat ≤ 57) || c.toNat = 45 || c.toNat = 95

def checkChars : List Char → Except Err Unit
  | [] => .ok ()
  | c :: rest =>
    if 0x7f < c.toNat then .error (.validation "ascii only")
    else if allowedChar c then checkChars rest
    else .error (.validation "invalid char")

/-- `ValidateProfileName`, check for check in source order. -/
def ValidateProfileName (profile : String) : Except Err Unit :=
  if trimSpace profile.toList = [] then
    .error (.validation "profile name cannot be empty")
  else if trimSpace profile.toList ≠ profile.toList then
    .error (.validation "profile name cannot start or end with whitespace")
  else if 64 < utf8Len profile.toList then
    .error (.validation "profile name too long")
  else if profile = "<custom>" then
    .error (.validation "profile name is reserved")
  else if hasSuffixL profile.toList " (modified)".toList then
    .error (.validation "profile name cannot end with modified suffix")
  else if profile.toList.head? = some '.' then
    .error (.validation "profile name cannot start with dot")
  else if base profile ≠ profile ∨ '/' ∈ profile.toList then
    .error (.validation "invalid profile name")
  else checkChars profile.toList

/-! ### `List`, `Save`, `Delete`, `Exists` -/

/-- `List`: `os.ReadDir(profilesDir)` — a missing profiles directory gives
an empty list without error; the subdirectory names are returned sorted by
`sort.Strings`.  (In the model every entry of the profiles directory is a
profile subdirectory.) -/
def ListProfiles (_t : Tool) (s : ProfState) : Except Err (List String) :=
  match s.profiles with
  | none => .ok []
  | some ps => .ok (List.insertionSort StrLE (ps.map (·.1)))

/-- `Exists` (named `ProfileExists` here because `Exists` is taken):
`os.Stat` on the profile directory. -/
def ProfileExists (_t : Tool) (profile : String) (s : ProfState) :
    Except Err Bool :=
  match lookupProfile s profile with
  | none => .ok false
  | some _ => .ok true

/-- The copy loop of `Save`: for every config-relative path in order, copy
the live file into the profile directory under its basename; a missing live
file is reported as `ErrConfigFileNotFound`.  The state is threaded so that
an error return keeps the files copied so far. -/
def saveLoop (profile : String) : List String → ProfState →
    Except Err Unit × ProfState
  | [], s => (.ok (), s)
  | rel :: rest, s =>
    let pdir := (lookupProfile s profile).getD []
    let b := base rel
    match copyFileE rel b (lookupKey s.live rel) (lookupKey pdir b) with
    | .error .notExist => (.error (.configFileNotFound rel), s)
    | .error er => (.error er, s)
    | .ok c => saveLoop profile rest (setProfile s profile (setKey pdir b (.file c)))

/-- `Save`. -/
def Save (t : Tool) (profile : String) (force : Bool) (s : ProfState) :
    Except Err Unit × ProfState :=
  match ValidateProfileName profile with
  | .error er => (.error er, s)
  | .ok _ =>
    if force then
      -- os.RemoveAll(profileDir); os.MkdirAll(profileDir)
      saveLoop profile t.ConfigRelPaths (setProfile (removeProfile s profile) profile [])
    else
      -- os.MkdirAll(parent); os.Mkdir(profileDir) is the exclusivity check
      let s1 : ProfState := { s with profiles := some (s.profiles.getD []) }
      match lookupProfile s1 profile with
      | some _ => (.error (.profileAlreadyExists profile), s1)
      | none => saveLoop profile t.ConfigRelPaths (setProfile s1 profile [])

/-- `readCurrentProfile`: a missing `current.json` reads as the empty
profile name with no error; an existing marker holds the canonical
serialization of the recorded name, which parses back to that name. -/
def readCurrentProfile (s : ProfState) : Except Err String :=
  match s.marker with
  | none => .ok ""
  | some n => .ok n

/-- `writeCurrentProfile` via `writeFileAtomic`: replaces `current.json`
with the canonical serialization of `profile`. -/
def writeCurrent (s : ProfState) (profile : String) : ProfState :=
  { s with marker := some profile }

/-- A node-level refinement of the marker path, used to settle how the
code treats a symlink at `current.json` itself (the value-level
`ProfState.marker` cannot represent one): the path is absent, a regular
file canonically storing `name`, a symlink (whose target, when it
resolves, is a regular file canonically storing a name), or a
directory. -/
inductive MarkerNode where
  | absent
  | stored (name : String)
  | symlinkTo (target : Option String)
  | dir

/-- The read `readCurrentProfile` performs on `current.json`:
`os.ReadFile` — which *follows* a final symlink, with no `Lstat` check
anywhere on this path — then `json.Unmarshal`.  An absent file (or a
dangling symlink, which also yields `ENOENT`) reads as the empty name
with no error; reading a directory fails with a plain I/O error; a
symlink to a marker file is silently followed and its target's recorded
name is returned. -/
def readMarkerNode : MarkerNode → Except Err String
  | .absent => .ok ""
  | .stored n => .ok n
  | .symlinkTo (some n) => .ok n
  | .symlinkTo none => .ok ""
  | .dir => .error (.ioError "read current.json: is a directory")

/-- The check `writeCurrentProfile` performs on the marker path before
replacing it: `writeFileAtomic` runs `rejectNonRegularFile`, an
`os.Lstat`-based check that does not follow a final symlink and rejects
symlinks and directories. -/
def writeMarkerCheck (path : String) : MarkerNode → Except Err Unit
  | .absent => .ok ()
  | .stored _ => .ok ()
  | .symlinkTo _ => .error (.symlinkNotAllowed path)
  | .dir => .error (.expectedFileIsDir path)

/-- `Delete`. -/
def Delete (_t : Tool) (profile : String) (s : ProfState) :
    Except Err Bool × ProfState :=
  match ValidateProfileName profile with
  | .error er => (.error er, s)
  | .ok _ =>
    match lookupProfile s profile with
    | none => (.error (.profileNotFound profile), s)
    | some _ =>
      match readCurrentProfile s with
      | .error er => (.error er, s)
      | .ok current =>
        if current = profile then
          (.ok true, writeCurrent (removeProfile s profile) "")
        else
          (.ok false, removeProfile s profile)

/-! ### `matches` and `Current` -/

/-- The comparison loop of `matches`, in declared order: the profile's copy
must be a regular file (`ErrProfileMissingFile` when absent), a missing
live file short-circuits to a non-match, otherwise compare with
`filesEqual`. -/
def matchesLoop (s : ProfState) (pdir : List (String × Entry)) :
    List String → Except Err Bool
  | [] => .ok true
  | rel :: rest =>
    let b := base rel
    match ensureRegularFile b (lookupKey pdir b) with
    | .error .notExist => .error (.profileMissingFile b)
    | .error er => .error er
    | .ok _ =>
      match ensureRegularFileIfExists rel (lookupKey s.live rel) with
      | .error er => .error er
      | .ok false => .ok false
      | .ok true =>
        match filesEqualM b rel (lookupKey pdir b) (lookupKey s.live rel) with
        | .error er => .error er
        | .ok false => .ok false
        | .ok true => matchesLoop s pdir rest

/-- `matches`: `os.Stat` of the profile directory (absent gives
`(false, nil)`), then the comparison loop over `profilePairs`. -/
def matchesM (t : Tool) (profile : String) (s : ProfState) :
    Except Err Bool :=
  match lookupProfile s profile with
  | none => .ok false
  | some pdir => matchesLoop s pdir t.ConfigRelPaths

/-- `Current`. -/
def Current (t : Tool) (s : ProfState) : Except Err String :=
  match readCurrentProfile s with
  | .error er => .error er
  | .ok profile =>
    if profile = "" then .ok "<custom>"
    else
      match ProfileExists t profile s with
      | .error er => .error er
      | .ok false => .ok "<custom>"
      | .ok true =>
        match matchesM t profile s with
        | .error er => .error er
        | .ok true => .ok profile
        | .ok false => .ok (profile ++ " (modified)")

/-! ### `Switch` -/

/-- Injected failures for `Switch`, consulted at the operations that the
claims exercise: `os.Rename` of a staged file onto a live path during
commit, the marker write, the backup-copy-back during `restoreRollback`,
and the marker rewrite during `rollbackSwitch`. -/
structure FailSpec where
  renameFails : String → Bool
  markerWriteFails : Bool
  restoreFails : String → Bool
  markerRestoreFails : Bool

/-- No injected failures: plain `Switch`. -/
def noFail : FailSpec :=
  { renameFails := fun _ => false, markerWriteFails := false,
    restoreFails := fun _ => false, markerRestoreFails := false }

/-- `stageProfileFiles`: copy each profile file into a staging temp file
next to its live target; `copyFileToFile` rejects a missing profile file
(`ErrProfileMissingFile`) or a non-regular one.  The result is the staged
content per pair, in declared order; staging temp files live outside the
managed state. -/
def stageLoop (pdir : List (String × Entry)) :
    List String → Except Err (List (String × String))
  | [] => .ok []
  | rel :: rest =>
    match lookupKey pdir (base rel) with
    | none => .error (.profileMissingFile (base rel))
    | some .symlink => .error (.symlinkNotAllowed (base rel))
    | some .dir => .error (.expectedFileIsDir (base rel))
    | some (.file c) =>
      match stageLoop pdir rest with
      | .error er => .error er
      | .ok staged => .ok ((rel, c) :: staged)

/-- `backupCurrentFiles`: `ensureRegularFileIfExists` on each live target;
an existing live file is copied into the rollback directory (recorded
content), a missing one is recorded as a tombstone. -/
def backupLoop (s : ProfState) :
    List String → Except Err (List (String × Option String))
  | [] => .ok []
  | rel :: rest =>
    match lookupKey s.live rel with
    | some .symlink => .error (.symlinkNotAllowed rel)
    | some .dir => .error (.expectedFileIsDir rel)
    | none =>
      match backupLoop s rest with
      | .error er => .error er
      | .ok entries => .ok ((rel, none) :: entries)
    | some (.file c) =>
      match backupLoop s rest with
      | .error er => .error er
      | .ok entries => .ok ((rel, some c) :: entries)

/-- `restoreRollback`: restore every backed-up entry (copy the backup over
the live path, or delete a path that did not exist before); failures are
accumulated, not short-circuited. -/
def restoreRollback (fail : FailSpec) :
    List (String × Option String) → ProfState → List Err × ProfState
  | [], s => ([], s)
  | (rel, some c) :: rest, s =>
    if fail.restoreFails rel then
      let (errs, s') := restoreRollback fail rest s
      (.ioError "restore failed" :: errs, s')
    else
      restoreRollback fail rest { s with live := setKey s.live rel (.file c) }
  | (rel, none) :: rest, s =>
    -- os.Remove(target), ignoring a does-not-exist error
    restoreRollback fail rest { s with live := delKey s.live rel }

/-- `rollbackSwitch`: restore the files, then (the prior marker read always
succeeds in the model, so it is always known) rewrite the marker to the
prior profile name; errors are joined. -/
def rollbackSwitch (prev : String) (fail : FailSpec)
    (entries : List (String × Option String)) (s : ProfState) :
    Option Err × ProfState :=
  let (resErrs, s1) := restoreRollback fail entries s
  let errs1 : List Err := if resErrs.isEmpty then [] else [.joined resErrs]
  if fail.markerRestoreFails then
    (some (.joined (errs1 ++ [.ioError "marker restore failed"])), s1)
  else
    let s2 := writeCurrent s1 prev
    (if errs1.isEmpty then none else some (.joined errs1), s2)

/-- The commit phase (the `os.Rename` loop) followed by the marker update;
on any failure, roll back over all backup entries and return the original
error, joined with the rollback error when the rollback itself failed. -/
def commitLoop (profile prev : String) (fail : FailSpec)
    (entries : List (String × Option String)) :
    List (String × String) → ProfState → Except Err Unit × ProfState
  | [], s =>
    if fail.markerWriteFails then
      let werr : Err := .ioError "write current profile failed"
      match rollbackSwitch prev fail entries s with
      | (some rbErr, s') => (.error (.joined [.switchFailed werr, rbErr]), s')
      | (none, s') => (.error (.switchFailed werr), s')
    else (.ok (), writeCurrent s profile)
  | (rel, c) :: rest, s =>
    if fail.renameFails rel then
      let rerr : Err := .ioError "rename failed"
      match rollbackSwitch prev fail entries s with
      | (some rbErr, s') => (.error (.joined [.switchFailed rerr, rbErr]), s')
      | (none, s') => (.error (.switchFailed rerr), s')
    else
      commitLoop profile prev fail entries rest
        { s with live := setKey s.live rel (.file c) }

/-- `Switch`. -/
def Switch (t : Tool) (profile : String) (fail : FailSpec) (s : ProfState) :
    Except Err Unit × ProfState :=
  match ValidateProfileName profile with
  | .error er => (.error er, s)
  | .ok _ =>
    -- snapshot the prior marker state; the Go code tolerates a read failure
    -- here (skipping marker rollback), but the model's read never fails,
    -- so the prior profile is always known
    let prev := markerVal s
    match lookupProfile s profile with
    | none => (.error (.profileNotFound profile), s)
    | some pdir =>
      match stageLoop pdir t.ConfigRelPaths with
      | .error er => (.error er, s)
      | .ok staged =>
        match backupLoop s t.ConfigRelPaths with
        | .error er => (.error er, s)
        | .ok entries => commitLoop profile prev fail entries staged s

/-! ### Specification-side predicates -/

/-- The rejection conditions listed by the specification for profile
names. -/
def RejectCond (p : String) : Prop :=
  '/' ∈ p.toList ∨
  (∃ c, p.toList.head? = some c ∧ goIsSpace c = true) ∨
  (∃ c, p.toList.getLast? = some c ∧ goIsSpace c = true) ∨
  p.toList.head? = some '.' ∨
  p = "<custom>" ∨
  (∃ pre, p.toList = pre ++ " (modified)".toList) ∨
  (∃ c ∈ p.toList, 0x7f < c.toNat) ∨
  64 < p.toList.length


/-- One config pair matches: the profile's copy is a regular file and the
live file is a regular file with the same bytes. -/
def PairMatch (s : ProfState) (pdir : List (String × Entry))
    (rel : String) : Prop :=
  ∃ c, lookupKey pdir (base rel) = some (.file c) ∧
    lookupKey s.live rel = some (.file c)

/-- Every declared basename is present in the profile directory as a
regular file. -/
def PdirIntact (pdir : List (String × Entry)) (rels : List String) : Prop :=
  ∀ rel ∈ rels, ∃ c, lookupKey pdir (base rel) = some (.file c)

/-- No managed live path holds a symlink or directory (each is either
absent or a regular file). -/
def LiveClean (s : ProfState) (rels : List String) : Prop :=
  ∀ rel ∈ rels, lookupKey s.live rel = none ∨
    ∃ c, lookupKey s.live rel = some (.file c)

/-- A profile directory holding only regular files. -/
def PdirFiles (pdir : List (String × Entry)) : Prop :=
  ∀ q ∈ pdir, ∃ c, q.2 = Entry.file c

/-- The backup entries record exactly the pre-switch contents of the live
paths. -/
def EntriesMatch (s : ProfState)
    (entries : List (String × Option String)) : Prop :=
  ∀ q ∈ entries,
    (q.2 = none → lookupKey s.live q.1 = none) ∧
    (∀ c, q.2 = some c → lookupKey s.live q.1 = some (.file c))

/-! ### Concrete states and failure specs -/

-- smoke tests mirroring TestValidateProfileName
example : ∃ e, ValidateProfileName "" = .error e := ⟨_, rfl⟩
example : ∃ e, ValidateProfileName "   " = .error e := ⟨_, rfl⟩
example : ∃ e, ValidateProfileName " work " = .error e := ⟨_, rfl⟩
example : ∃ e, ValidateProfileName ".work" = .error e := ⟨_, rfl⟩
example : ∃ e, ValidateProfileName "a/b" = .error e := ⟨_, rfl⟩
example : ∃ e, ValidateProfileName "my profile" = .error e := ⟨_, rfl⟩
example : ∃ e, ValidateProfileName "<custom>" = .error e := ⟨_, rfl⟩
example : ∃ e, ValidateProfileName "work (modified)" = .error e := ⟨_, rfl⟩
example : ValidateProfileName "work" = .ok () := rfl
example : ValidateProfileName "work-1" = .ok () := rfl

-- smoke test mirroring TestClaudeLifecycle
def lcState : ProfState :=
  { live := [(".claude/settings.json", .file "x1")], profiles := none,
    marker := none }
example : Current ClaudeTool lcState = .ok "<custom>" := rfl
def lcSaved : ProfState := (Save ClaudeTool "work" false lcState).2
example : (Save ClaudeTool "work" false lcState).1 = .ok () := rfl
def lcSwitched : ProfState := (Switch ClaudeTool "work" noFail lcSaved).2
example : (Switch ClaudeTool "work" noFail lcSaved).1 = .ok () := rfl
example : Current ClaudeTool lcSwitched = .ok "work" := rfl
def lcModified : ProfState :=
  { lcSwitched with live := [(".claude/settings.json", .file "x2")] }
example : Current ClaudeTool lcModified = .ok "work (modified)" := rfl
example : (Delete ClaudeTool "work" lcModified).1 = .ok true := rfl
example : Current ClaudeTool (Delete ClaudeTool "work" lcModified).2 = .ok "<custom>" := rfl

-- smoke test mirroring TestCurrentStatusRejectsSymlinkConfig
def lcSymlinked : ProfState :=
  { lcSwitched with live := [(".claude/settings.json", .symlink)] }
example : Current ClaudeTool lcSymlinked =
    .error (.symlinkNotAllowed ".claude/settings.json") := rfl

/-- A state with one saved profile `work` (content `A`), a live file with
different content `B`, and no marker file yet. -/
def c1State : ProfState :=
  { live := [(".claude/settings.json", .file "B")],
    profiles := some [("work", [("settings.json", .file "A")])],
    marker := none }

/-- Injected failure: the commit-phase rename of the staged file onto
`.claude/settings.json` fails; rollback succeeds. -/
def c1RenameFail : FailSpec :=
  { renameFails := fun rel => rel = ".claude/settings.json",
    markerWriteFails := false,
    restoreFails := fun _ => false, markerRestoreFails := false }

/-- Injected failure: the commit-phase rename fails and the rollback's
copy-back of the same file also fails. -/
def c1BothFail : FailSpec :=
  { renameFails := fun rel => rel = ".claude/settings.json",
    markerWriteFails := false,
    restoreFails := fun rel => rel = ".claude/settings.json",
    markerRestoreFails := false }

/-- Marker names `work`, but the profile directory lost its copy of
`settings.json`. -/
def c6MissingProfileFile : ProfState :=
  { live := [(".claude/settings.json", .file "x1")],
    profiles := some [("work", [])], marker := some "work" }

/-- Marker names `work`, the profile is intact, but the live file is
gone. -/
def c6MissingLive : ProfState :=
  { live := [],
    profiles := some [("work", [("settings.json", .file "x1")])],
    marker := some "work" }

/-- A Codex state where the first live config file exists, the second is
missing, and profile `p` holds a previously saved two-file snapshot. -/
def c9State : ProfState :=
  { live := [(".codex/config.toml", .file "k1")],
    profiles := some [("p", [("config.toml", .file "old"),
      ("auth.json", .file "olda")])],
    marker := none }

/-- An unsorted profiles directory. -/
def c8State : ProfState :=
  { live := [(".claude/settings.json", .file "x1")],
    profiles := some [("work", []), ("personal", []), ("alpha", [])],
    marker := none }

-- smoke test mirroring TestListProfiles
example : ListProfiles ClaudeTool lcState = .ok [] := rfl
example :
    ListProfiles ClaudeTool
      { lcState with
        profiles := some [("work", []), ("personal", []), ("alpha", [])] } =
    .ok ["alpha", "personal", "work"] := rfl


/-! ### Association list lemmas -/

theorem lookupKey_setKey {α : Type} (l : List (String × α)) (k k' : String)
    (v : α) :
    lookupKey (setKey l k v) k' = if k = k' then some v else lookupKey l k' := by
  induction l with
  | nil => simp [setKey, lookupKey]
  | cons hd tl ih =>
    obtain ⟨k₀, v₀⟩ := hd
    by_cases h : k₀ = k
    · subst h
      by_cases h' : k₀ = k' <;> simp [setKey, lookupKey, h']
    · by_cases h' : k₀ = k'
      · subst h'
        simp [setKey, lookupKey, h, Ne.symm h]
      · simp [setKey, lookupKey, h, h', ih]

theorem lookupKey_delKey {α : Type} (l : List (String × α)) (k k' : String) :
    lookupKey (delKey l k) k' = if k = k' then none else lookupKey l k' := by
  induction l with
  | nil => simp [delKey, lookupKey]
  | cons hd tl ih =>
    obtain ⟨k₀, v₀⟩ := hd
    by_cases h : k₀ = k
    · subst h
      by_cases h' : k₀ = k'
      · subst h'
        simp [delKey, lookupKey, ih]
      · simp [delKey, lookupKey, h', ih]
    · by_cases h' : k₀ = k'
      · subst h'
        simp [delKey, lookupKey, h, Ne.symm h]
      · simp [delKey, lookupKey, h, h', ih]

theorem mem_setKey {α : Type} (l : List (String × α)) (k : String) (v : α)
    (q : String × α) (hq : q ∈ setKey l k v) : q = (k, v) ∨ q ∈ l := by
  induction l with
  | nil => simpa [setKey] using hq
  | cons hd tl ih =>
    obtain ⟨k₀, v₀⟩ := hd
    by_cases h : k₀ = k
    · subst h
      rcases (by simpa [setKey] using hq : q = (k₀, v) ∨ q ∈ tl) with h₁ | h₁
      · exact Or.inl h₁
      · exact Or.inr (List.mem_cons_of_mem _ h₁)
    · rcases (by simpa [setKey, h] using hq : q = (k₀, v₀) ∨ q ∈ setKey tl k v) with h₁ | h₁
      · exact Or.inr (by simp [h₁])
      · rcases ih h₁ with h₂ | h₂
        · exact Or.inl h₂
        · exact Or.inr (List.mem_cons_of_mem _ h₂)

/-! ### State helper lemmas -/

theorem lookupProfile_setProfile (s : ProfState) (n n' : String)
    (d : List (String × Entry)) :
    lookupProfile (setProfile s n d) n' =
      if n = n' then some d else lookupProfile s n' := by
  cases hs : s.profiles <;>
    simp [lookupProfile, setProfile, hs, lookupKey_setKey, Option.getD,
      lookupKey]

theorem lookupProfile_removeProfile (s : ProfState) (n n' : String) :
    lookupProfile (removeProfile s n) n' =
      if n = n' then none else lookupProfile s n' := by
  cases hs : s.profiles <;>
    simp [lookupProfile, removeProfile, hs, lookupKey_delKey]

theorem readCurrentProfile_eq (s : ProfState) :
    readCurrentProfile s = .ok (markerVal s) := by
  cases h : s.marker <;> simp [readCurrentProfile, markerVal, h]

/-! ### `ValidateProfileName` facts -/

theorem checkChars_ok_mem (l : List Char) (h : checkChars l = .ok ()) :
    ∀ c ∈ l, c.toNat ≤ 0x7f ∧ allowedChar c = true := by
  induction l with
  | nil => simp
  | cons c rest ih =>
    intro d hd
    by_cases h₁ : 0x7f < c.toNat
    · simp [checkChars, h₁] at h
    · by_cases h₂ : allowedChar c
      · rcases List.mem_cons.mp hd with h₃ | h₃
        · subst h₃; exact ⟨Nat.le_of_not_lt h₁, h₂⟩
        · exact ih (by simpa [checkChars, h₁, h₂] using h) d h₃
      · simp [checkChars, h₁, h₂] at h

theorem checkChars_ok_of_allowed (l : List Char)
    (h : ∀ c ∈ l, allowedChar c = true) : checkChars l = .ok () := by
  induction l with
  | nil => rfl
  | cons c rest ih =>
    have hc := h c (by simp)
    have hle : c.toNat ≤ 0x7f := by
      simp only [allowedChar, Bool.or_eq_true, Bool.and_eq_true,
        decide_eq_true_eq] at hc
      omega
    simp only [checkChars, Nat.not_lt.mpr hle, if_neg (by omega : ¬ 0x7f < c.toNat), hc,
      if_true]
    exact ih (fun d hd => h d (by simp [hd]))

theorem allowedChar_not_space (c : Char) (h : allowedChar c = true) :
    goIsSpace c = false := by
  simp only [allowedChar, Bool.or_eq_true, Bool.and_eq_true,
    decide_eq_true_eq] at h
  simp only [goIsSpace, Bool.or_eq_false_iff, Bool.and_eq_false_iff,
    decide_eq_false_iff_not]
  omega

theorem dropWhile_eq_self_of_not (p : Char → Bool) (l : List Char)
    (h : ∀ c ∈ l, p c = false) : l.dropWhile p = l := by
  cases l with
  | nil => rfl
  | cons c rest => simp [List.dropWhile, h c (by simp)]

theorem trimSpace_eq_self_of_not (l : List Char)
    (h : ∀ c ∈ l, goIsSpace c = false) : trimSpace l = l := by
  unfold trimSpace
  rw [dropWhile_eq_self_of_not _ _ h,
    dropWhile_eq_self_of_not _ _ (fun c hc => h c (List.mem_reverse.mp hc)),
    List.reverse_reverse]

theorem length_dropWhile_le (p : Char → Bool) (l : List Char) :
    (l.dropWhile p).length ≤ l.length := by
  induction l with
  | nil => simp
  | cons c rest ih =>
    by_cases h : p c
    · simp only [List.dropWhile, h]
      exact Nat.le_trans ih (by simp)
    · simp [List.dropWhile, h]

theorem trimSpace_length_le (l : List Char) :
    (trimSpace l).length ≤ l.length := by
  unfold trimSpace
  calc ((l.dropWhile goIsSpace).reverse.dropWhile goIsSpace).reverse.length
      = ((l.dropWhile goIsSpace).reverse.dropWhile goIsSpace).length := by simp
    _ ≤ (l.dropWhile goIsSpace).reverse.length := length_dropWhile_le _ _
    _ = (l.dropWhile goIsSpace).length := by simp
    _ ≤ l.length := length_dropWhile_le _ _

/-- `TrimSpace` fixes a sequence only if its first character is not white
space. -/
theorem trimSpace_head (l : List Char) (c : Char) (hhead : l.head? = some c)
    (hsp : goIsSpace c = true) : trimSpace l ≠ l := by
  intro heq
  cases l with
  | nil => simp at hhead
  | cons c₀ rest =>
    have hc : c₀ = c := by simpa using hhead
    have h1 : ((c₀ :: rest).dropWhile goIsSpace).length ≤ rest.length := by
      rw [List.dropWhile_cons, hc, hsp]
      simpa using length_dropWhile_le goIsSpace rest
    have h3 : (trimSpace (c₀ :: rest)).length ≤ rest.length := by
      unfold trimSpace
      calc (((c₀ :: rest).dropWhile goIsSpace).reverse.dropWhile goIsSpace).reverse.length
          ≤ ((c₀ :: rest).dropWhile goIsSpace).reverse.length := by
            simpa using
              length_dropWhile_le goIsSpace ((c₀ :: rest).dropWhile goIsSpace).reverse
        _ = ((c₀ :: rest).dropWhile goIsSpace).length := by simp
        _ ≤ rest.length := h1
    rw [heq] at h3
    simp at h3

/-- `TrimSpace` fixes a sequence only if its last character is not white
space. -/
theorem trimSpace_getLast (l : List Char) (c : Char)
    (hlast : l.getLast? = some c) (hsp : goIsSpace c = true) :
    trimSpace l ≠ l := by
  intro heq
  have hrev : l.reverse.head? = some c := by
    rw [List.head?_reverse]; exact hlast
  by_cases hfix : l.dropWhile goIsSpace = l
  · -- the inner dropWhile is the identity, so the outer one must shorten
    have h1 : (l.reverse.dropWhile goIsSpace).length + 1 ≤ l.length := by
      cases hr : l.reverse with
      | nil => simp [hr] at hrev
      | cons c₀ rest =>
        have hc : c₀ = c := by simpa [hr] using hrev
        have hlen : l.length = rest.length + 1 := by
          have := congrArg List.length hr; simpa using this
        rw [List.dropWhile_cons, hc, hsp]
        have := length_dropWhile_le goIsSpace rest
        simp only [if_true]
        omega
    have h2 : (trimSpace l).length + 1 ≤ l.length := by
      unfold trimSpace
      rw [hfix]
      simpa using h1
    rw [heq] at h2
    omega
  · -- the inner dropWhile shortens, and trimming never grows it back
    have h1 : (l.dropWhile goIsSpace).length < l.length := by
      rcases Nat.lt_or_ge (l.dropWhile goIsSpace).length l.length with h | h
      · exact h
      · exact absurd ((List.dropWhile_sublist goIsSpace (l := l)).eq_of_length_le h) hfix
    have h2 : (trimSpace l).length < l.length := by
      unfold trimSpace
      calc ((l.dropWhile goIsSpace).reverse.dropWhile goIsSpace).reverse.length
          ≤ (l.dropWhile goIsSpace).length := by
            simpa using
              length_dropWhile_le goIsSpace (l.dropWhile goIsSpace).reverse
        _ < l.length := h1
    rw [heq] at h2
    omega

theorem utf8Len_eq_length (l : List Char) (h : ∀ c ∈ l, c.toNat ≤ 0x7f) :
    utf8Len l = l.length := by
  induction l with
  | nil => rfl
  | cons c rest ih =>
    have : utf8CharSize c = 1 := by simp [utf8CharSize, h c (by simp)]
    simp only [utf8Len, List.map_cons, List.sum_cons, this, List.length_cons]
    have := ih (fun d hd => h d (by simp [hd]))
    simp only [utf8Len] at this
    omega

theorem length_le_utf8Len (l : List Char) : l.length ≤ utf8Len l := by
  induction l with
  | nil => simp [utf8Len]
  | cons c rest ih =>
    have h1 : 1 ≤ utf8CharSize c := by
      unfold utf8CharSize
      split <;> try omega
      split <;> try omega
      split <;> omega
    simp only [utf8Len, List.map_cons, List.sum_cons, List.length_cons]
    simp only [utf8Len] at ih
    omega

theorem hasSuffixL_append (pre suf : List Char) :
    hasSuffixL (pre ++ suf) suf = true := by
  unfold hasSuffixL
  rw [decide_eq_true_iff, List.reverse_append,
    List.take_left' (by simp : suf.reverse.length = suf.length)]

theorem mem_of_hasSuffixL (l suf : List Char) (h : hasSuffixL l suf = true)
    (c : Char) (hc : c ∈ suf) : c ∈ l := by
  unfold hasSuffixL at h
  have h' := of_decide_eq_true h
  have hmem : c ∈ l.reverse.take suf.length := by
    rw [h']; simpa using hc
  exact List.mem_reverse.mp (List.mem_of_mem_take hmem)

theorem takeWhile_eq_self_of (p : Char → Bool) (l : List Char)
    (h : ∀ c ∈ l, p c = true) : l.takeWhile p = l := by
  induction l with
  | nil => rfl
  | cons c rest ih =>
    rw [List.takeWhile_cons, h c (by simp), if_pos rfl]
    rw [ih (fun d hd => h d (by simp [hd]))]

theorem base_eq_self (p : String) (hne : p.toList ≠ [])
    (hnotslash : '/' ∉ p.toList) : base p = p := by
  unfold base filepathBaseL
  rw [if_neg hne, if_neg ?hall]
  case hall =>
    intro hall
    cases hl : p.toList with
    | nil => exact hne hl
    | cons c rest =>
      rw [hl] at hall
      have hc : c = '/' := by
        have := (List.all_eq_true.mp hall) c (by simp)
        simpa using this
      exact hnotslash (by rw [hl, hc]; simp)
  · rw [dropWhile_eq_self_of_not _ _ (fun c hc => by
      simp only [decide_eq_false_iff_not]
      intro hcc
      exact hnotslash (by rw [← hcc]; exact List.mem_reverse.mp hc))]
    rw [takeWhile_eq_self_of _ _ (fun c hc => by
      simp only [decide_eq_true_iff]
      intro hcc
      exact hnotslash (by rw [← hcc]; exact List.mem_reverse.mp hc))]
    rw [List.reverse_reverse]
    cases p with
    | mk d => rfl

theorem allowedChar_ascii (c : Char) (h : allowedChar c = true) :
    c.toNat ≤ 0x7f := by
  simp only [allowedChar, Bool.or_eq_true, Bool.and_eq_true,
    decide_eq_true_eq] at h
  omega

/-- Unpack what a successful `ValidateProfileName` run guarantees: every
check in the chain was passed. -/
theorem validate_ok_facts (p : String) (hv : ValidateProfileName p = .ok ()) :
    trimSpace p.toList ≠ [] ∧ trimSpace p.toList = p.toList ∧
    utf8Len p.toList ≤ 64 ∧ p ≠ "<custom>" ∧
    ¬ hasSuffixL p.toList " (modified)".toList = true ∧
    ¬ p.toList.head? = some '.' ∧
    base p = p ∧ '/' ∉ p.toList ∧ checkChars p.toList = .ok () := by
  unfold ValidateProfileName at hv
  split_ifs at hv with h1 h2 h3 h4 h5 h6 h7
  push_neg at h7
  exact ⟨h1, not_not.mp h2, by omega, h4, h5, h6, h7.1, h7.2, hv⟩

theorem validate_ok_ne_empty (p : String) (hv : ValidateProfileName p = .ok ()) :
    p ≠ "" := by
  intro h
  subst h
  exact absurd hv (by simp [ValidateProfileName, trimSpace])

theorem validate_rejects (p : String) (hc : RejectCond p) :
    ∃ e, ValidateProfileName p = .error e := by
  cases hval : ValidateProfileName p with
  | error e => exact ⟨e, rfl⟩
  | ok u =>
    exfalso
    cases u
    obtain ⟨hne, htrim, hlen, hcust, hsuf, hdot, hbase, hslash, hchars⟩ :=
      validate_ok_facts p hval
    rcases hc with h | ⟨c, hh, hs⟩ | ⟨c, hh, hs⟩ | h | h | ⟨pre, h⟩ | ⟨c, hm, hna⟩ | h
    · exact hslash h
    · exact trimSpace_head _ c hh hs htrim
    · exact trimSpace_getLast _ c hh hs htrim
    · exact hdot h
    · exact hcust h
    · exact hsuf (by rw [h]; exact hasSuffixL_append pre _)
    · exact absurd (checkChars_ok_mem _ hchars c hm).1 (by omega)
    · exact absurd (Nat.le_trans (length_le_utf8Len p.toList) hlen) (by omega)

theorem validate_accepts (p : String) (hne : p.toList ≠ [])
    (hlen : p.toList.length ≤ 64)
    (hall : ∀ c ∈ p.toList, allowedChar c = true) :
    ValidateProfileName p = .ok () := by
  have hspace : ∀ c ∈ p.toList, goIsSpace c = false :=
    fun c hc => allowedChar_not_space c (hall c hc)
  have htrim : trimSpace p.toList = p.toList :=
    trimSpace_eq_self_of_not _ hspace
  have hslash : '/' ∉ p.toList := by
    intro hm
    have := hall '/' hm
    simp [allowedChar] at this
  unfold ValidateProfileName
  rw [if_neg (by rw [htrim]; exact hne), if_neg (not_not.mpr htrim),
    if_neg (by rw [utf8Len_eq_length _
      (fun c hc => allowedChar_ascii c (hall c hc))]; omega),
    if_neg ?hcust, if_neg ?hsuf, if_neg ?hdot, if_neg ?hbase]
  case hcust =>
    intro h
    have hm : '<' ∈ p.toList := by
      rw [congrArg String.toList h]
      decide
    have := hall '<' hm
    simp [allowedChar] at this
  case hsuf =>
    intro h
    have hm : ' ' ∈ p.toList :=
      mem_of_hasSuffixL _ _ h ' ' (by decide)
    have := hall ' ' hm
    simp [allowedChar] at this
  case hdot =>
    intro h
    cases hl : p.toList with
    | nil => rw [hl] at h; simp at h
    | cons c rest =>
      rw [hl] at h
      have hc : c = '.' := by simpa using h
      have := hall '.' (by rw [hl, hc]; simp)
      simp [allowedChar] at this
  case hbase =>
    intro h
    rcases h with h | h
    · exact h (base_eq_self p hne hslash)
    · exact hslash h
  exact checkChars_ok_of_allowed _ hall

/-! ### Facts about `matches` and `Current` -/

theorem matchesLoop_cons_pairMatch (s : ProfState)
    (pdir : List (String × Entry)) (rel : String) (rest : List String)
    (h : PairMatch s pdir rel) :
    matchesLoop s pdir (rel :: rest) = matchesLoop s pdir rest := by
  obtain ⟨c, h1, h2⟩ := h
  simp [matchesLoop, h1, h2, ensureRegularFile, ensureRegularFileIfExists,
    filesEqualM]

theorem matchesLoop_all (s : ProfState) (pdir : List (String × Entry))
    (rels : List String) (h : ∀ r ∈ rels, PairMatch s pdir r) :
    matchesLoop s pdir rels = .ok true := by
  induction rels with
  | nil => rfl
  | cons rel rest ih =>
    rw [matchesLoop_cons_pairMatch s pdir rel rest (h rel (by simp))]
    exact ih (fun r hr => h r (by simp [hr]))

theorem matchesLoop_append (s : ProfState) (pdir : List (String × Entry))
    (pre rest : List String) (h : ∀ r ∈ pre, PairMatch s pdir r) :
    matchesLoop s pdir (pre ++ rest) = matchesLoop s pdir rest := by
  induction pre with
  | nil => rfl
  | cons rel tl ih =>
    rw [List.cons_append,
      matchesLoop_cons_pairMatch s pdir rel (tl ++ rest) (h rel (by simp))]
    exact ih (fun r hr => h r (by simp [hr]))

theorem matchesLoop_false (s : ProfState) (pdir : List (String × Entry))
    (rels : List String) (hpd : PdirIntact pdir rels)
    (hlc : LiveClean s rels) (hnot : ¬ ∀ r ∈ rels, PairMatch s pdir r) :
    matchesLoop s pdir rels = .ok false := by
  induction rels with
  | nil => exact absurd (by simp) hnot
  | cons rel rest ih =>
    obtain ⟨c, hc⟩ := hpd rel (by simp)
    rcases hlc rel (by simp) with hnone | ⟨c', hc'⟩
    · simp [matchesLoop, hc, hnone, ensureRegularFile,
        ensureRegularFileIfExists]
    · by_cases heq : c = c'
      · subst heq
        rw [matchesLoop_cons_pairMatch s pdir rel rest ⟨c, hc, hc'⟩]
        refine ih (fun r hr => hpd r (by simp [hr]))
          (fun r hr => hlc r (by simp [hr])) ?_
        intro hall
        exact hnot (fun r hr => by
          rcases List.mem_cons.mp hr with h | h
          · exact h ▸ ⟨c, hc, hc'⟩
          · exact hall r h)
      · simp [matchesLoop, hc, hc', ensureRegularFile,
          ensureRegularFileIfExists, filesEqualM, heq]

theorem Current_custom (t : Tool) (s : ProfState)
    (h : markerVal s = "" ∨ lookupProfile s (markerVal s) = none) :
    Current t s = .ok "<custom>" := by
  rcases h with h | h
  · simp [Current, readCurrentProfile_eq, h]
  · by_cases h0 : markerVal s = ""
    · simp [Current, readCurrentProfile_eq, h0]
    · simp [Current, readCurrentProfile_eq, h0, ProfileExists, h]

theorem Current_of_matchesLoop (t : Tool) (s : ProfState)
    (pdir : List (String × Entry)) (h0 : markerVal s ≠ "")
    (hpd : lookupProfile s (markerVal s) = some pdir) :
    Current t s =
      match matchesLoop s pdir t.ConfigRelPaths with
      | .error e => .error e
      | .ok true => .ok (markerVal s)
      | .ok false => .ok (markerVal s ++ " (modified)") := by
  simp [Current, readCurrentProfile_eq, h0, ProfileExists, hpd, matchesM]

/-! ### Facts about `Save` -/

theorem mem_of_lookupKey {α : Type} (l : List (String × α)) (k : String)
    (v : α) (h : lookupKey l k = some v) : (k, v) ∈ l := by
  induction l with
  | nil => simp [lookupKey] at h
  | cons hd tl ih =>
    obtain ⟨k₀, v₀⟩ := hd
    by_cases hk : k₀ = k
    · subst hk
      have : v₀ = v := by simpa [lookupKey] using h
      simp [this]
    · exact List.mem_cons_of_mem _ (ih (by simpa [lookupKey, hk] using h))

theorem pdirFiles_setKey (pdir : List (String × Entry)) (b : String)
    (c : String) (h : PdirFiles pdir) :
    PdirFiles (setKey pdir b (.file c)) := by
  intro q hq
  rcases mem_setKey pdir b (.file c) q hq with h₁ | h₁
  · exact ⟨c, by simp [h₁]⟩
  · exact h q h₁

theorem saveLoop_ok (profile : String) (rels : List String) :
    ∀ (s : ProfState) (pdir0 : List (String × Entry)),
    lookupProfile s profile = some pdir0 → PdirFiles pdir0 →
    (∀ rel ∈ rels, ∃ c, lookupKey s.live rel = some (.file c)) →
    ∃ s' pdirF,
      saveLoop profile rels s = (.ok (), s') ∧
      lookupProfile s' profile = some pdirF ∧ PdirFiles pdirF ∧
      PdirIntact pdirF rels ∧
      (∀ b, (∃ c, lookupKey pdir0 b = some (.file c)) →
        ∃ c, lookupKey pdirF b = some (.file c)) ∧
      s'.live = s.live ∧ s'.marker = s.marker := by
  induction rels with
  | nil =>
    intro s pdir0 h1 h2 _h3
    exact ⟨s, pdir0, rfl, h1, h2, by simp [PdirIntact], fun b hb => hb,
      rfl, rfl⟩
  | cons rel rest ih =>
    intro s pdir0 h1 h2 h3
    obtain ⟨c, hc⟩ := h3 rel (by simp)
    have hdst : rejectNonRegularFile (base rel)
        (lookupKey pdir0 (base rel)) = .ok () := by
      cases hq : lookupKey pdir0 (base rel) with
      | none => rfl
      | some e =>
        obtain ⟨c', hc'⟩ := h2 (base rel, e) (mem_of_lookupKey _ _ _ hq)
        simp only at hc'
        simp [hc', rejectNonRegularFile, ensureRegularFileIfExists]
    have hstep : saveLoop profile (rel :: rest) s =
        saveLoop profile rest
          (setProfile s profile (setKey pdir0 (base rel) (.file c))) := by
      simp only [saveLoop, h1, Option.getD]
      simp [copyFileE, hc, hdst]
    obtain ⟨s', pdirF, hrun, hP, hPF, hPI, hpres, hlive, hmark⟩ :=
      ih (setProfile s profile (setKey pdir0 (base rel) (.file c)))
        (setKey pdir0 (base rel) (.file c))
        (by rw [lookupProfile_setProfile]; simp)
        (pdirFiles_setKey _ _ _ h2)
        (fun r hr => h3 r (by simp [hr]))
    refine ⟨s', pdirF, by rw [hstep]; exact hrun, hP, hPF, ?_, ?_, hlive, hmark⟩
    · intro r hr
      rcases List.mem_cons.mp hr with h | h
      · subst h
        exact hpres (base r) ⟨c, by rw [lookupKey_setKey]; simp⟩
      · exact hPI r h
    · intro b hb
      refine hpres b ?_
      obtain ⟨c₀, hc₀⟩ := hb
      rw [lookupKey_setKey]
      by_cases hbb : base rel = b
      · exact ⟨c, by simp [hbb]⟩
      · exact ⟨c₀, by simp [hbb, hc₀]⟩

theorem Save_ok (t : Tool) (p : String) (s : ProfState)
    (hv : ValidateProfileName p = .ok ())
    (hnp : lookupProfile s p = none)
    (hlive : ∀ rel ∈ t.ConfigRelPaths, ∃ c, lookupKey s.live rel = some (.file c)) :
    ∃ s' pdirF,
      Save t p false s = (.ok (), s') ∧
      lookupProfile s' p = some pdirF ∧ PdirFiles pdirF ∧
      PdirIntact pdirF t.ConfigRelPaths ∧
      s'.live = s.live ∧ s'.marker = s.marker := by
  have hs1 : lookupProfile { s with profiles := some (s.profiles.getD []) } p = none := by
    cases hps : s.profiles with
    | none => simp [lookupProfile, lookupKey]
    | some ps => simpa [lookupProfile, hps] using hnp
  obtain ⟨s', pdirF, hrun, hP, hPF, hPI, _hpres, hlive', hmark⟩ :=
    saveLoop_ok p t.ConfigRelPaths
      (setProfile { s with profiles := some (s.profiles.getD []) } p []) []
      (by rw [lookupProfile_setProfile]; simp)
      (by intro q hq; simp at hq)
      (fun r hr => hlive r hr)
  refine ⟨s', pdirF, ?_, hP, hPF, hPI, hlive', hmark⟩
  simp only [Save, hv, Bool.false_eq_true, if_neg (by simp : ¬ False)]
  simp only [hs1]
  exact hrun

/-! ### Facts about `Switch` -/

theorem stageLoop_ok (pdir : List (String × Entry)) (rels : List String)
    (hpd : PdirIntact pdir rels) :
    ∃ staged, stageLoop pdir rels = .ok staged ∧
      staged.map (·.1) = rels ∧
      ∀ q ∈ staged, lookupKey pdir (base q.1) = some (.file q.2) := by
  induction rels with
  | nil => exact ⟨[], rfl, rfl, by simp⟩
  | cons rel rest ih =>
    obtain ⟨c, hc⟩ := hpd rel (by simp)
    obtain ⟨staged, hrun, hkeys, hfun⟩ := ih (fun r hr => hpd r (by simp [hr]))
    refine ⟨(rel, c) :: staged, ?_, by simp [hkeys], ?_⟩
    · simp [stageLoop, hc, hrun]
    · intro q hq
      rcases List.mem_cons.mp hq with h | h
      · simp [h, hc]
      · exact hfun q h

theorem backupLoop_ok (s : ProfState) (rels : List String)
    (hlc : LiveClean s rels) :
    ∃ entries, backupLoop s rels = .ok entries ∧
      entries.map (·.1) = rels ∧ EntriesMatch s entries := by
  induction rels with
  | nil => exact ⟨[], rfl, rfl, by simp [EntriesMatch]⟩
  | cons rel rest ih =>
    obtain ⟨entries, hrun, hkeys, hm⟩ := ih (fun r hr => hlc r (by simp [hr]))
    rcases hlc rel (by simp) with hnone | ⟨c, hc⟩
    · refine ⟨(rel, none) :: entries, by simp [backupLoop, hnone, hrun],
        by simp [hkeys], ?_⟩
      intro q hq
      rcases List.mem_cons.mp hq with h | h
      · subst h
        exact ⟨fun _ => hnone, fun c hcc => by simp at hcc⟩
      · exact hm q h
    · refine ⟨(rel, some c) :: entries, by simp [backupLoop, hc, hrun],
        by simp [hkeys], ?_⟩
      intro q hq
      rcases List.mem_cons.mp hq with h | h
      · subst h
        exact ⟨fun hcc => by simp at hcc,
          fun c' hcc => by simp at hcc; rw [← hcc]; exact hc⟩
      · exact hm q h

theorem restoreRollback_ok (fail : FailSpec)
    (hrf : ∀ p, fail.restoreFails p = false)
    (entries : List (String × Option String)) (orig : ProfState)
    (hm : EntriesMatch orig entries) :
    ∀ s : ProfState,
    (∀ p, p ∉ entries.map (·.1) → lookupKey s.live p = lookupKey orig.live p) →
    ∃ s', restoreRollback fail entries s = ([], s') ∧
      (∀ p, lookupKey s'.live p = lookupKey orig.live p) ∧
      s'.marker = s.marker ∧ s'.profiles = s.profiles := by
  induction entries with
  | nil =>
    intro s hoff
    exact ⟨s, rfl, fun p => hoff p (by simp), rfl, rfl⟩
  | cons q rest ih =>
    intro s hoff
    obtain ⟨rel, b⟩ := q
    have hmq := hm (rel, b) (by simp)
    have hmrest : EntriesMatch orig rest := fun q hq => hm q (by simp [hq])
    cases b with
    | some c =>
      have horig : lookupKey orig.live rel = some (.file c) := hmq.2 c rfl
      have hstep : restoreRollback fail ((rel, some c) :: rest) s =
          restoreRollback fail rest
            { s with live := setKey s.live rel (.file c) } := by
        simp [restoreRollback, hrf rel]
      obtain ⟨s', hrun, hres, hmark, hprof⟩ :=
        ih hmrest { s with live := setKey s.live rel (.file c) } (by
          intro p hp
          simp only
          rw [lookupKey_setKey]
          by_cases hpr : rel = p
          · rw [if_pos hpr, ← hpr, horig]
          · rw [if_neg hpr]
            exact hoff p (by simp [Ne.symm hpr, hp]))
      exact ⟨s', by rw [hstep]; exact hrun, hres, hmark, hprof⟩
    | none =>
      have horig : lookupKey orig.live rel = none := hmq.1 rfl
      obtain ⟨s', hrun, hres, hmark, hprof⟩ :=
        ih hmrest { s with live := delKey s.live rel } (by
          intro p hp
          simp only
          rw [lookupKey_delKey]
          by_cases hpr : rel = p
          · rw [if_pos hpr, ← hpr, horig]
          · rw [if_neg hpr]
            exact hoff p (by simp [Ne.symm hpr, hp]))
      exact ⟨s', by simpa [restoreRollback] using hrun, hres, hmark, hprof⟩

theorem rollbackSwitch_ok (prev : String) (fail : FailSpec)
    (hrf : ∀ p, fail.restoreFails p = false)
    (hmrf : fail.markerRestoreFails = false)
    (entries : List (String × Option String)) (orig : ProfState)
    (hm : EntriesMatch orig entries) (s : ProfState)
    (hoff : ∀ p, p ∉ entries.map (·.1) →
      lookupKey s.live p = lookupKey orig.live p) :
    ∃ s', rollbackSwitch prev fail entries s = (none, s') ∧
      (∀ p, lookupKey s'.live p = lookupKey orig.live p) ∧
      s'.marker = some prev ∧ s'.profiles = s.profiles := by
  obtain ⟨s₁, hrun, hres, hmark, hprof⟩ :=
    restoreRollback_ok fail hrf entries orig hm s hoff
  refine ⟨writeCurrent s₁ prev, ?_, hres, rfl, hprof⟩
  simp [rollbackSwitch, hrun, hmrf]

theorem commitLoop_error_restores (profile prev : String) (fail : FailSpec)
    (hrf : ∀ p, fail.restoreFails p = false)
    (hmrf : fail.markerRestoreFails = false)
    (entries : List (String × Option String)) (orig : ProfState)
    (hm : EntriesMatch orig entries) (staged : List (String × String)) :
    ∀ s : ProfState,
    (∀ p, p ∉ entries.map (·.1) →
      lookupKey s.live p = lookupKey orig.live p) →
    (∀ q ∈ staged, q.1 ∈ entries.map (·.1)) →
    s.profiles = orig.profiles →
    ∀ e s', commitLoop profile prev fail entries staged s = (.error e, s') →
      (∀ p, lookupKey s'.live p = lookupKey orig.live p) ∧
      s'.marker = some prev ∧ s'.profiles = orig.profiles := by
  induction staged with
  | nil =>
    intro s hoff _hkeys hprof e s' hrun
    by_cases hmw : fail.markerWriteFails
    · obtain ⟨s₁, hrb, hres, hmark, hprof₁⟩ :=
        rollbackSwitch_ok prev fail hrf hmrf entries orig hm s hoff
      simp only [commitLoop, hmw, if_true, hrb] at hrun
      cases hrun
      exact ⟨hres, hmark, by rw [hprof₁]; exact hprof⟩
    · simp [commitLoop, hmw] at hrun
  | cons q rest ih =>
    intro s hoff hkeys hprof e s' hrun
    obtain ⟨rel, c⟩ := q
    by_cases hrn : fail.renameFails rel
    · obtain ⟨s₁, hrb, hres, hmark, hprof₁⟩ :=
        rollbackSwitch_ok prev fail hrf hmrf entries orig hm s hoff
      simp only [commitLoop, hrn, if_true, hrb] at hrun
      cases hrun
      exact ⟨hres, hmark, by rw [hprof₁]; exact hprof⟩
    · simp only [commitLoop, hrn, if_false, Bool.false_eq_true] at hrun
      refine ih { s with live := setKey s.live rel (.file c) } ?_
        (fun q hq => hkeys q (by simp [hq])) hprof e s' hrun
      intro p hp
      simp only
      rw [lookupKey_setKey]
      have hrel : rel ∈ entries.map (·.1) := hkeys (rel, c) (by simp)
      by_cases hpr : rel = p
      · exact absurd (hpr ▸ hrel) hp
      · rw [if_neg hpr]
        exact hoff p hp

theorem stageLoop_sound (pdir : List (String × Entry)) (rels : List String)
    (staged : List (String × String))
    (h : stageLoop pdir rels = .ok staged) : staged.map (·.1) = rels := by
  induction rels generalizing staged with
  | nil =>
    cases h
    rfl
  | cons rel rest ih =>
    unfold stageLoop at h
    cases hq : lookupKey pdir (base rel) with
    | none => rw [hq] at h; cases h
    | some e =>
      cases e with
      | symlink => rw [hq] at h; cases h
      | dir => rw [hq] at h; cases h
      | file c =>
        rw [hq] at h
        cases hbr : stageLoop pdir rest with
        | error er => rw [hbr] at h; cases h
        | ok staged' =>
          rw [hbr] at h
          cases h
          simpa using ih staged' hbr

theorem backupLoop_sound (s : ProfState) (rels : List String)
    (entries : List (String × Option String))
    (h : backupLoop s rels = .ok entries) :
    entries.map (·.1) = rels ∧ EntriesMatch s entries := by
  induction rels generalizing entries with
  | nil =>
    cases h
    exact ⟨rfl, by simp [EntriesMatch]⟩
  | cons rel rest ih =>
    unfold backupLoop at h
    cases hq : lookupKey s.live rel with
    | none =>
      rw [hq] at h
      cases hbr : backupLoop s rest with
      | error er => rw [hbr] at h; cases h
      | ok es =>
        rw [hbr] at h
        cases h
        obtain ⟨hkeys, hmatch⟩ := ih es hbr
        refine ⟨by simpa using hkeys, ?_⟩
        intro q hq'
        rcases List.mem_cons.mp hq' with h₁ | h₁
        · subst h₁
          exact ⟨fun _ => hq, fun c hcc => by simp at hcc⟩
        · exact hmatch q h₁
    | some e =>
      cases e with
      | symlink => rw [hq] at h; cases h
      | dir => rw [hq] at h; cases h
      | file c =>
        rw [hq] at h
        cases hbr : backupLoop s rest with
        | error er => rw [hbr] at h; cases h
        | ok es =>
          rw [hbr] at h
          cases h
          obtain ⟨hkeys, hmatch⟩ := ih es hbr
          refine ⟨by simpa using hkeys, ?_⟩
          intro q hq'
          rcases List.mem_cons.mp hq' with h₁ | h₁
          · subst h₁
            exact ⟨fun hcc => by simp at hcc,
              fun c' hcc => by simp at hcc; rw [← hcc]; exact hq⟩
          · exact hmatch q h₁

theorem commitLoop_noFail (profile prev : String)
    (entries : List (String × Option String))
    (staged : List (String × String)) :
    ∀ s : ProfState,
    ∃ s₂, commitLoop profile prev noFail entries staged s = (.ok (), s₂) ∧
      s₂.marker = some profile ∧ s₂.profiles = s.profiles ∧
      (∀ p, p ∉ staged.map (·.1) →
        lookupKey s₂.live p = lookupKey s.live p) ∧
      (∀ F : String → String, (∀ q ∈ staged, q.2 = F q.1) →
        ∀ rel ∈ staged.map (·.1),
          lookupKey s₂.live rel = some (.file (F rel))) := by
  induction staged with
  | nil =>
    intro s
    exact ⟨writeCurrent s profile, rfl, rfl, rfl, fun p _ => rfl,
      fun F _ rel hrel => by simp at hrel⟩
  | cons q rest ih =>
    intro s
    obtain ⟨rel, c⟩ := q
    obtain ⟨s₂, hrun, hmark, hprof, hoff, hfun⟩ :=
      ih { s with live := setKey s.live rel (.file c) }
    refine ⟨s₂, by simpa [commitLoop, noFail] using hrun, hmark, hprof, ?_, ?_⟩
    · intro p hp
      have hp' : p ∉ rest.map (·.1) := by
        intro hmem; exact hp (by simp [hmem])
      have hpr : ¬ rel = p := by
        intro hh; exact hp (by simp [hh])
      rw [hoff p hp']
      simp only
      rw [lookupKey_setKey, if_neg hpr]
    · intro F hF rel' hrel'
      have hsplit : rel' = rel ∨ rel' ∈ rest.map (·.1) := by
        rcases List.mem_map.mp hrel' with ⟨q', hq', hqe⟩
        rcases List.mem_cons.mp hq' with h₁ | h₁
        · left; rw [← hqe, h₁]
        · right; exact List.mem_map.mpr ⟨q', h₁, hqe⟩
      rcases hsplit with h₁ | h₁
      · subst h₁
        by_cases hmem : rel' ∈ rest.map (·.1)
        · exact hfun F (fun q hq => hF q (by simp [hq])) rel' hmem
        · rw [hoff rel' hmem]
          simp only
          rw [lookupKey_setKey, if_pos rfl]
          have : c = F rel' := hF (rel', c) (by simp)
          rw [this]
      · exact hfun F (fun q hq => hF q (by simp [hq])) rel'
          (by simpa using h₁)

/-- On any error return of `Switch`, provided the rollback operations
themselves do not fail, every live file lookup and the marker value (and
the profiles tree) are exactly as before the call. -/
theorem Switch_error_restores (t : Tool) (p : String) (fail : FailSpec)
    (s : ProfState) (hrf : ∀ q, fail.restoreFails q = false)
    (hmrf : fail.markerRestoreFails = false) :
    ∀ e s', Switch t p fail s = (.error e, s') →
      (∀ path, lookupKey s'.live path = lookupKey s.live path) ∧
      markerVal s' = markerVal s ∧ s'.profiles = s.profiles := by
  intro e s' hrun
  unfold Switch at hrun
  cases hv : ValidateProfileName p with
  | error er =>
    rw [hv] at hrun
    cases hrun
    exact ⟨fun _ => rfl, rfl, rfl⟩
  | ok u =>
    cases u
    simp only [hv] at hrun
    cases hlp : lookupProfile s p with
    | none =>
      simp only [hlp] at hrun
      cases hrun
      exact ⟨fun _ => rfl, rfl, rfl⟩
    | some pdir =>
      simp only [hlp] at hrun
      cases hst : stageLoop pdir t.ConfigRelPaths with
      | error er =>
        simp only [hst] at hrun
        cases hrun
        exact ⟨fun _ => rfl, rfl, rfl⟩
      | ok staged =>
        simp only [hst] at hrun
        cases hbk : backupLoop s t.ConfigRelPaths with
        | error er =>
          simp only [hbk] at hrun
          cases hrun
          exact ⟨fun _ => rfl, rfl, rfl⟩
        | ok entries =>
          simp only [hbk] at hrun
          obtain ⟨hekeys, hematch⟩ := backupLoop_sound s _ entries hbk
          have hskeys := stageLoop_sound pdir _ staged hst
          obtain ⟨hres, hmark, hprof⟩ :=
            commitLoop_error_restores p (markerVal s) fail hrf hmrf entries
              s hematch staged s (fun _ _ => rfl)
              (fun q hq => by
                rw [hekeys, ← hskeys]
                exact List.mem_map.mpr ⟨q, hq, rfl⟩)
              rfl e s' hrun
          exact ⟨hres, by rw [markerVal, hmark]; rfl, hprof⟩

/-- Successful `Switch` with no injected failures: the marker now names the
target profile, each managed live file now holds the corresponding profile
file's bytes, and nothing else changed. -/
theorem Switch_ok (t : Tool) (p : String) (s : ProfState)
    (pdir : List (String × Entry)) (hv : ValidateProfileName p = .ok ())
    (hlp : lookupProfile s p = some pdir)
    (hpd : PdirIntact pdir t.ConfigRelPaths)
    (hlc : LiveClean s t.ConfigRelPaths) :
    ∃ s', Switch t p noFail s = (.ok (), s') ∧
      s'.marker = some p ∧ s'.profiles = s.profiles ∧
      (∀ rel ∈ t.ConfigRelPaths, ∃ c,
        lookupKey s'.live rel = some (.file c) ∧
        lookupKey pdir (base rel) = some (.file c)) ∧
      (∀ q, q ∉ t.ConfigRelPaths → lookupKey s'.live q = lookupKey s.live q) := by
  obtain ⟨staged, hst, hskeys, hsfun⟩ := stageLoop_ok pdir t.ConfigRelPaths hpd
  obtain ⟨entries, hbk, _hekeys, _hem⟩ := backupLoop_ok s t.ConfigRelPaths hlc
  obtain ⟨s₂, hrun, hmark, hprof, hoff, hfun⟩ :=
    commitLoop_noFail p (markerVal s) entries staged s
  refine ⟨s₂, ?_, hmark, hprof, ?_, ?_⟩
  · simp only [Switch, hv, hlp, hst, hbk]
    exact hrun
  · intro rel hrel
    obtain ⟨c, hc⟩ := hpd rel hrel
    have hlook := hfun (fun r =>
        match lookupKey pdir (base r) with
        | some (.file c') => c'
        | _ => "")
      (fun q hq => by simp only [hsfun q hq])
      rel (by rw [hskeys]; exact hrel)
    refine ⟨c, ?_, hc⟩
    rw [hlook]
    simp [hc]
  · intro q hq
    exact hoff q (by rw [hskeys]; exact hq)

/-! ### Claim theorems -/

/-- C1 (amended): for every tool and target profile, if `Switch` fails —
in particular during the commit phase (a staged-file rename fails) or the
marker update — and the rollback operations themselves succeed, then after
`Switch` returns its error every managed live config file holds exactly
the byte contents it held before the call and the marker denotes the same
profile value as before (and the profiles tree is untouched); the
counterexample forces only this much weakening: the marker is restored as
a *value*, not byte-for-byte — a previously-absent marker file is
materialized as an explicit empty marker by the rollback.  And when the
rollback itself also fails, the original error and the rollback error are
surfaced together in the returned `errors.Join`. -/
theorem claim1_switch_rollback :
    (∀ (t : Tool) (p : String) (fail : FailSpec) (s : ProfState),
      (∀ q, fail.restoreFails q = false) → fail.markerRestoreFails = false →
      ∀ e s', Switch t p fail s = (.error e, s') →
        (∀ path, lookupKey s'.live path = lookupKey s.live path) ∧
        markerVal s' = markerVal s ∧ s'.profiles = s.profiles) ∧
    Switch ClaudeTool "work" c1BothFail c1State =
      (.error (.joined [.switchFailed (.ioError "rename failed"),
        .joined [.joined [.ioError "restore failed"]]]),
       { c1State with marker := some "" }) :=
  ⟨Switch_error_restores, rfl⟩

theorem claim1_switch_rollback_witness :
    lookupKey (Switch ClaudeTool "work" c1RenameFail c1State).2.live
      ".claude/settings.json" =
      lookupKey c1State.live ".claude/settings.json" ∧
    markerVal (Switch ClaudeTool "work" c1RenameFail c1State).2 =
      markerVal c1State := by
  have h := claim1_switch_rollback.1 ClaudeTool "work" c1RenameFail c1State
    (fun _ => rfl) rfl (.switchFailed (.ioError "rename failed"))
    (Switch ClaudeTool "work" c1RenameFail c1State).2 rfl
  exact ⟨h.1 ".claude/settings.json", h.2.1⟩

/-- C1 counterexample to the claim as stated: a commit-phase rename
failure on a state whose marker file does not exist.  `Switch` returns an
error, the rollback succeeds — but the rollback's marker rewrite creates
`current.json` (holding the empty profile name), so the marker does not
hold its pre-call byte contents (it did not exist before the call). -/
theorem claim1_marker_bytes_counterexample :
    (∃ e, (Switch ClaudeTool "work" c1RenameFail c1State).1 = .error e) ∧
    c1State.marker = none ∧
    (Switch ClaudeTool "work" c1RenameFail c1State).2.marker = some "" :=
  ⟨⟨.switchFailed (.ioError "rename failed"), rfl⟩, rfl, rfl⟩

/-- C2 (amended): for every tool, a *successful* `Current` returns exactly
one of three results — `<custom>` when the marker is empty or names a
profile whose directory does not exist; the bare profile name when the
marker names an existing profile and every live file exists as a regular
non-symlink file byte-equal to the profile's copy; and `name (modified)`
otherwise — except that when the comparison itself faults (a symlink or
directory at an examined live path, or a profile file that is missing or
not regular), `Current` returns that error instead of any of the three
renderings. -/
theorem claim2_current_trichotomy (t : Tool) (s : ProfState) :
    (markerVal s = "" ∨ lookupProfile s (markerVal s) = none →
      Current t s = .ok "<custom>") ∧
    (∀ pdir, markerVal s ≠ "" → lookupProfile s (markerVal s) = some pdir →
      (∀ rel ∈ t.ConfigRelPaths, PairMatch s pdir rel) →
      Current t s = .ok (markerVal s)) ∧
    (∀ pdir, markerVal s ≠ "" → lookupProfile s (markerVal s) = some pdir →
      PdirIntact pdir t.ConfigRelPaths → LiveClean s t.ConfigRelPaths →
      ¬ (∀ rel ∈ t.ConfigRelPaths, PairMatch s pdir rel) →
      Current t s = .ok (markerVal s ++ " (modified)")) := by
  refine ⟨Current_custom t s, ?_, ?_⟩
  · intro pdir h0 hpd hall
    rw [Current_of_matchesLoop t s pdir h0 hpd,
      matchesLoop_all s pdir _ hall]
  · intro pdir h0 hpd hint hlc hnot
    rw [Current_of_matchesLoop t s pdir h0 hpd,
      matchesLoop_false s pdir _ hint hlc hnot]

theorem claim2_current_trichotomy_witness :
    Current ClaudeTool lcState = .ok "<custom>" :=
  (claim2_current_trichotomy ClaudeTool lcState).1 (Or.inl rfl)

/-- C2 counterexample to the claim as stated: the marker names an existing
profile and the bare-name condition fails (the live file is a symlink), so
the claim's "otherwise" clause predicts `work (modified)` — but `Current`
returns a symlink error, which is none of the three listed results. -/
theorem claim2_current_error_counterexample :
    markerVal lcSymlinked = "work" ∧
    lookupProfile lcSymlinked "work" =
      some [("settings.json", .file "x1")] ∧
    ¬ (∀ rel ∈ ClaudeTool.ConfigRelPaths,
        PairMatch lcSymlinked [("settings.json", .file "x1")] rel) ∧
    Current ClaudeTool lcSymlinked =
      .error (.symlinkNotAllowed ".claude/settings.json") := by
  refine ⟨rfl, rfl, ?_, rfl⟩
  intro hall
  obtain ⟨c, _h1, h2⟩ := hall ".claude/settings.json" (by simp [ClaudeTool])
  have hsym : lookupKey lcSymlinked.live ".claude/settings.json" =
      some .symlink := rfl
  rw [hsym] at h2
  simp at h2

/-- C3 (amended): encountering a symlink at a managed path an operation
must read or write is a fatal integrity error at every site *except the
read of the current-marker file*: if the drift comparison reaches a live
config path or a profile file path holding a symlink, `Current` fails
with the symlink error rather than return a verdict; `copyFile` — the
primitive behind save, backup and restore — rejects a symlink at its
source or its destination; `Switch`'s staging rejects a symlinked
profile file and its backup a symlinked live file; and the marker
*write* rejects a symlink at `current.json`.  The marker *read*
(`readCurrentProfile`) is the one deviation the counterexample records:
`os.ReadFile` silently follows a symlink there. -/
theorem claim3_symlink_rejected :
    (∀ (t : Tool) (s : ProfState) (pdir : List (String × Entry))
      (pre post : List String) (rel : String),
      markerVal s ≠ "" → lookupProfile s (markerVal s) = some pdir →
      t.ConfigRelPaths = pre ++ rel :: post →
      (∀ r ∈ pre, PairMatch s pdir r) →
      (∃ c, lookupKey pdir (base rel) = some (.file c)) →
      lookupKey s.live rel = some .symlink →
      Current t s = .error (.symlinkNotAllowed rel)) ∧
    (∀ (t : Tool) (s : ProfState) (pdir : List (String × Entry))
      (pre post : List String) (rel : String),
      markerVal s ≠ "" → lookupProfile s (markerVal s) = some pdir →
      t.ConfigRelPaths = pre ++ rel :: post →
      (∀ r ∈ pre, PairMatch s pdir r) →
      lookupKey pdir (base rel) = some .symlink →
      Current t s = .error (.symlinkNotAllowed (base rel))) ∧
    (∀ srcPath dstPath dst,
      copyFileE srcPath dstPath (some .symlink) dst =
        .error (.symlinkNotAllowed srcPath)) ∧
    (∀ srcPath dstPath c,
      copyFileE srcPath dstPath (some (.file c)) (some .symlink) =
        .error (.symlinkNotAllowed dstPath)) ∧
    (∀ (pdir : List (String × Entry)) (rel : String) (rest : List String),
      lookupKey pdir (base rel) = some .symlink →
      stageLoop pdir (rel :: rest) =
        .error (.symlinkNotAllowed (base rel))) ∧
    (∀ (s : ProfState) (rel : String) (rest : List String),
      lookupKey s.live rel = some .symlink →
      backupLoop s (rel :: rest) = .error (.symlinkNotAllowed rel)) ∧
    (∀ (path : String) (target : Option String),
      writeMarkerCheck path (.symlinkTo target) =
        .error (.symlinkNotAllowed path)) := by
  refine ⟨?_, ?_, fun _ _ _ => rfl, fun _ _ _ => rfl, ?_, ?_, fun _ _ => rfl⟩
  · intro t s pdir pre post rel h0 hpd hsplit hpre hc hsym
    obtain ⟨c, hc⟩ := hc
    rw [Current_of_matchesLoop t s pdir h0 hpd, hsplit,
      matchesLoop_append s pdir pre _ hpre]
    simp [matchesLoop, hc, hsym, ensureRegularFile, ensureRegularFileIfExists]
  · intro t s pdir pre post rel h0 hpd hsplit hpre hsym
    rw [Current_of_matchesLoop t s pdir h0 hpd, hsplit,
      matchesLoop_append s pdir pre _ hpre]
    simp [matchesLoop, hsym, ensureRegularFile]
  · intro pdir rel rest hsym
    simp [stageLoop, hsym]
  · intro s rel rest hsym
    simp [backupLoop, hsym]

theorem claim3_symlink_rejected_witness :
    Current ClaudeTool lcSymlinked =
      .error (.symlinkNotAllowed ".claude/settings.json") :=
  claim3_symlink_rejected.1 ClaudeTool lcSymlinked
    [("settings.json", .file "x1")] [] [] ".claude/settings.json"
    (by decide) rfl rfl (fun r hr => absurd hr (by simp)) ⟨"x1", rfl⟩ rfl

/-- C3 counterexample to the claim as stated: the current-marker file is
a managed path that `Current`, `Switch` and `Delete` must read, yet a
symlink placed at `current.json` does not make the read fail —
`readCurrentProfile` uses `os.ReadFile` with no symlink check, follows
the link, and returns the name recorded in the attacker-chosen target —
while the very same node is rejected by the marker *write*'s
`rejectNonRegularFile` check. -/
theorem claim3_marker_symlink_counterexample :
    readMarkerNode (.symlinkTo (some "evil")) = .ok "evil" ∧
    (∀ e, readMarkerNode (.symlinkTo (some "evil")) ≠ .error e) ∧
    writeMarkerCheck "current.json" (.symlinkTo (some "evil")) =
      .error (.symlinkNotAllowed "current.json") :=
  ⟨rfl, fun _ h => Except.noConfusion h, rfl⟩

/-- C4: `ValidateProfileName` rejects every string with a path separator,
leading/trailing white space, a leading dot, the reserved sentinel, the
reserved modified-suffix, a non-ASCII character, or more than 64
characters; it accepts every non-empty string of at most 64 characters
drawn from ASCII letters, digits, hyphen, underscore; and `Save`, `Switch`
and `Delete` all run it first, returning its error with the state
untouched. -/
theorem claim4_validate_spec :
    (∀ p, RejectCond p → ∃ e, ValidateProfileName p = .error e) ∧
    (∀ p, p.toList ≠ [] → p.toList.length ≤ 64 →
      (∀ c ∈ p.toList, allowedChar c = true) →
      ValidateProfileName p = .ok ()) ∧
    (∀ (t : Tool) (p : String) (s : ProfState) (e : Err) (force : Bool)
      (fail : FailSpec), ValidateProfileName p = .error e →
      Save t p force s = (.error e, s) ∧ Switch t p fail s = (.error e, s) ∧
      Delete t p s = (.error e, s)) := by
  refine ⟨validate_rejects, validate_accepts, ?_⟩
  intro t p s e force fail hv
  exact ⟨by simp [Save, hv], by simp [Switch, hv], by simp [Delete, hv]⟩

theorem claim4_validate_spec_witness :
    (∃ e, ValidateProfileName "a/b" = .error e) ∧
    ValidateProfileName "work-1" = .ok () ∧
    Delete ClaudeTool " work " lcState =
      (.error (.validation "profile name cannot start or end with whitespace"),
       lcState) :=
  ⟨claim4_validate_spec.1 "a/b" (Or.inl (by decide)),
   claim4_validate_spec.2.1 "work-1" (by decide) (by decide) (by decide),
   (claim4_validate_spec.2.2 ClaudeTool " work " lcState _ false noFail
     rfl).2.2⟩

/-- C5: for every tool and valid profile name `p`, starting from a state
where all the tool's live config files exist as regular files and profile
`p` does not yet exist, `Save` then `Switch` then `Current` yields exactly
the bare name `p`. -/
theorem claim5_roundtrip (t : Tool) (p : String) (s : ProfState)
    (hv : ValidateProfileName p = .ok ())
    (hnp : lookupProfile s p = none)
    (hlive : ∀ rel ∈ t.ConfigRelPaths,
      ∃ c, lookupKey s.live rel = some (.file c)) :
    ∃ s₁ s₂, Save t p false s = (.ok (), s₁) ∧
      Switch t p noFail s₁ = (.ok (), s₂) ∧
      Current t s₂ = .ok p := by
  obtain ⟨s₁, pdirF, hsave, hP, _hPF, hPI, hlive₁, _hmark₁⟩ :=
    Save_ok t p s hv hnp hlive
  have hlc : LiveClean s₁ t.ConfigRelPaths := by
    intro rel hr
    right
    rw [hlive₁]
    exact hlive rel hr
  obtain ⟨s₂, hswitch, hmark₂, hprof₂, hlive₂, _hoff₂⟩ :=
    Switch_ok t p s₁ pdirF hv hP hPI hlc
  refine ⟨s₁, s₂, hsave, hswitch, ?_⟩
  have h0 : markerVal s₂ = p := by rw [markerVal, hmark₂]; rfl
  have hne : markerVal s₂ ≠ "" := by rw [h0]; exact validate_ok_ne_empty p hv
  have hpd₂ : lookupProfile s₂ (markerVal s₂) = some pdirF := by
    rw [h0]
    have hcongr : lookupProfile s₂ p = lookupProfile s₁ p := by
      unfold lookupProfile
      rw [hprof₂]
    rw [hcongr]
    exact hP
  rw [Current_of_matchesLoop t s₂ pdirF hne hpd₂,
    matchesLoop_all s₂ pdirF _ (fun rel hr => by
      obtain ⟨c, hcl, hcp⟩ := hlive₂ rel hr
      exact ⟨c, hcp, hcl⟩), h0]

theorem claim5_roundtrip_witness :
    ∃ s₁ s₂, Save ClaudeTool "work" false lcState = (.ok (), s₁) ∧
      Switch ClaudeTool "work" noFail s₁ = (.ok (), s₂) ∧
      Current ClaudeTool s₂ = .ok "work" :=
  claim5_roundtrip ClaudeTool "work" lcState rfl rfl
    (fun rel hr => ⟨"x1", by
      have hrel : rel = ".claude/settings.json" := by simpa [ClaudeTool] using hr
      rw [hrel]
      rfl⟩)

/-- C6: during `Current`'s drift check, a file missing from the stored
profile directory is a distinct "profile missing file" error (the call
fails), whereas a missing live config file is not an error — it
short-circuits the comparison to a non-match and `Current` returns the
Modified rendering. -/
theorem claim6_drift_asymmetry :
    (∀ (t : Tool) (s : ProfState) (pdir : List (String × Entry))
      (pre post : List String) (rel : String),
      markerVal s ≠ "" → lookupProfile s (markerVal s) = some pdir →
      t.ConfigRelPaths = pre ++ rel :: post →
      (∀ r ∈ pre, PairMatch s pdir r) →
      lookupKey pdir (base rel) = none →
      Current t s = .error (.profileMissingFile (base rel))) ∧
    (∀ (t : Tool) (s : ProfState) (pdir : List (String × Entry))
      (pre post : List String) (rel : String),
      markerVal s ≠ "" → lookupProfile s (markerVal s) = some pdir →
      t.ConfigRelPaths = pre ++ rel :: post →
      (∀ r ∈ pre, PairMatch s pdir r) →
      (∃ c, lookupKey pdir (base rel) = some (.file c)) →
      lookupKey s.live rel = none →
      Current t s = .ok (markerVal s ++ " (modified)")) := by
  constructor
  · intro t s pdir pre post rel h0 hpd hsplit hpre hmiss
    rw [Current_of_matchesLoop t s pdir h0 hpd, hsplit,
      matchesLoop_append s pdir pre _ hpre]
    simp [matchesLoop, hmiss, ensureRegularFile]
  · intro t s pdir pre post rel h0 hpd hsplit hpre hc hnone
    obtain ⟨c, hc⟩ := hc
    rw [Current_of_matchesLoop t s pdir h0 hpd, hsplit,
      matchesLoop_append s pdir pre _ hpre]
    simp [matchesLoop, hc, hnone, ensureRegularFile,
      ensureRegularFileIfExists]

theorem claim6_drift_asymmetry_witness :
    Current ClaudeTool c6MissingProfileFile =
      .error (.profileMissingFile "settings.json") ∧
    Current ClaudeTool c6MissingLive =
      .ok (markerVal c6MissingLive ++ " (modified)") :=
  ⟨claim6_drift_asymmetry.1 ClaudeTool c6MissingProfileFile []
      [] [] ".claude/settings.json" (by decide) rfl rfl
      (fun r hr => absurd hr (by simp)) rfl,
   claim6_drift_asymmetry.2 ClaudeTool c6MissingLive
      [("settings.json", .file "x1")] [] [] ".claude/settings.json"
      (by decide) rfl rfl (fun r hr => absurd hr (by simp))
      ⟨"x1", rfl⟩ rfl⟩

/-- C7: for every tool and valid name, `Delete` fails with
profile-not-found when the profile directory does not exist; otherwise it
removes the profile directory and returns `cleared = true` after clearing
the marker to empty exactly when the marker named the deleted profile,
else `cleared = false` with the marker unchanged; live config files are
never touched. -/
theorem claim7_delete_spec (t : Tool) (p : String) (s : ProfState)
    (hv : ValidateProfileName p = .ok ()) :
    (lookupProfile s p = none →
      Delete t p s = (.error (.profileNotFound p), s)) ∧
    (lookupProfile s p ≠ none → markerVal s = p →
      ∃ s', Delete t p s = (.ok true, s') ∧ s'.live = s.live ∧
        markerVal s' = "" ∧ lookupProfile s' p = none ∧
        ∀ q, q ≠ p → lookupProfile s' q = lookupProfile s q) ∧
    (lookupProfile s p ≠ none → markerVal s ≠ p →
      ∃ s', Delete t p s = (.ok false, s') ∧ s'.live = s.live ∧
        s'.marker = s.marker ∧ lookupProfile s' p = none ∧
        ∀ q, q ≠ p → lookupProfile s' q = lookupProfile s q) := by
  refine ⟨?_, ?_, ?_⟩
  · intro hnp
    simp [Delete, hv, hnp]
  · intro hex hcur
    cases hlp : lookupProfile s p with
    | none => exact absurd hlp hex
    | some d =>
      refine ⟨writeCurrent (removeProfile s p) "", ?_, rfl, rfl, ?_, ?_⟩
      · simp [Delete, hv, hlp, readCurrentProfile_eq, hcur]
      · have : lookupProfile (writeCurrent (removeProfile s p) "") p =
            lookupProfile (removeProfile s p) p := rfl
        rw [this, lookupProfile_removeProfile]
        simp
      · intro q hq
        have : lookupProfile (writeCurrent (removeProfile s p) "") q =
            lookupProfile (removeProfile s p) q := rfl
        rw [this, lookupProfile_removeProfile]
        simp [Ne.symm hq]
  · intro hex hcur
    cases hlp : lookupProfile s p with
    | none => exact absurd hlp hex
    | some d =>
      refine ⟨removeProfile s p, ?_, rfl, rfl, ?_, ?_⟩
      · simp [Delete, hv, hlp, readCurrentProfile_eq, hcur]
      · rw [lookupProfile_removeProfile]
        simp
      · intro q hq
        rw [lookupProfile_removeProfile]
        simp [Ne.symm hq]

theorem claim7_delete_spec_witness :
    Delete ClaudeTool "work" lcState =
      (.error (.profileNotFound "work"), lcState) ∧
    (∃ s', Delete ClaudeTool "work" c6MissingLive = (.ok true, s') ∧
      s'.live = c6MissingLive.live ∧ markerVal s' = "" ∧
      lookupProfile s' "work" = none ∧
      ∀ q, q ≠ "work" → lookupProfile s' q = lookupProfile c6MissingLive q) :=
  ⟨(claim7_delete_spec ClaudeTool "work" lcState rfl).1 rfl,
   (claim7_delete_spec ClaudeTool "work" c6MissingLive rfl).2.1
     (by decide) rfl⟩

/-- C8: `List` returns the names of the immediate subdirectories of the
profiles directory in ascending lexicographic order, and an empty sequence
(not an error) when the profiles directory does not exist yet. -/
theorem claim8_list_spec (t : Tool) (s : ProfState) :
    (s.profiles = none → ListProfiles t s = .ok []) ∧
    (∀ ps, s.profiles = some ps →
      ∃ names, ListProfiles t s = .ok names ∧
        names.Sorted StrLE ∧ List.Perm names (ps.map (·.1))) := by
  constructor
  · intro h
    simp [ListProfiles, h]
  · intro ps h
    exact ⟨List.insertionSort StrLE (ps.map (·.1)),
      by simp [ListProfiles, h], List.sorted_insertionSort StrLE _,
      List.perm_insertionSort StrLE _⟩

theorem claim8_list_spec_witness :
    ListProfiles ClaudeTool lcState = .ok [] ∧
    (∃ names, ListProfiles ClaudeTool c8State = .ok names ∧
      names.Sorted StrLE ∧
      List.Perm names ["work", "personal", "alpha"]) :=
  ⟨(claim8_list_spec ClaudeTool lcState).1 rfl,
   (claim8_list_spec ClaudeTool c8State).2
     [("work", []), ("personal", []), ("alpha", [])] rfl⟩

/-- C9: `Save` with `force = true` is not atomic on failure: it removes
the existing profile directory, recreates it, and copies file by file; if
a live config file is missing, the error return leaves a profile directory
containing only the files copied before the failure — the previous
snapshot is gone. -/
theorem claim9_save_force_not_atomic (p : String) (s : ProfState)
    (c1 : String) (oldDir : List (String × Entry))
    (hv : ValidateProfileName p = .ok ())
    (_hold : lookupProfile s p = some oldDir)
    (h1 : lookupKey s.live ".codex/config.toml" = some (.file c1))
    (h2 : lookupKey s.live ".codex/auth.json" = none) :
    ∃ s', Save CodexTool p true s =
        (.error (.configFileNotFound ".codex/auth.json"), s') ∧
      lookupProfile s' p = some [("config.toml", .file c1)] ∧
      s'.live = s.live ∧ s'.marker = s.marker := by
  have hbase1 : base ".codex/config.toml" = "config.toml" := by decide
  have hbase2 : base ".codex/auth.json" = "auth.json" := by decide
  refine ⟨setProfile (setProfile (removeProfile s p) p []) p
    [("config.toml", .file c1)], ?_, ?_, rfl, rfl⟩
  · have hlive1 : lookupKey (setProfile (removeProfile s p) p []).live
        ".codex/config.toml" = some (Entry.file c1) := h1
    have hlive2 : lookupKey
        (setProfile (setProfile (removeProfile s p) p []) p
          [("config.toml", Entry.file c1)]).live
        ".codex/auth.json" = none := h2
    simp only [Save, hv, if_true, CodexTool]
    unfold saveLoop
    simp only [lookupProfile_setProfile, if_pos rfl, Option.getD, hbase1,
      hlive1, copyFileE, rejectNonRegularFile, ensureRegularFileIfExists,
      lookupKey]
    unfold saveLoop
    simp only [lookupProfile_setProfile, if_pos rfl, Option.getD, hbase2,
      hlive2, copyFileE, setKey]
  · rw [lookupProfile_setProfile]
    simp

theorem claim9_save_force_not_atomic_witness :
    ∃ s', Save CodexTool "p" true c9State =
        (.error (.configFileNotFound ".codex/auth.json"), s') ∧
      lookupProfile s' "p" = some [("config.toml", .file "k1")] ∧
      s'.live = c9State.live ∧ s'.marker = c9State.marker :=
  claim9_save_force_not_atomic "p" c9State "k1"
    [("config.toml", .file "old"), ("auth.json", .file "olda")]
    rfl rfl rfl rfl

/-- C10: a current-marker file that does not exist on disk is treated as
an empty marker rather than an error: `readCurrentProfile` returns the
empty string with no error, and on such a store `Current` succeeds with
`<custom>`. -/
theorem claim10_missing_marker_empty (t : Tool) (s : ProfState)
    (h : s.marker = none) :
    readCurrentProfile s = .ok "" ∧ Current t s = .ok "<custom>" := by
  constructor
  · simp [readCurrentProfile, h]
  · exact Current_custom t s (Or.inl (by simp [markerVal, h]))

theorem claim10_missing_marker_empty_witness :
    readCurrentProfile lcState = .ok "" ∧
    Current ClaudeTool lcState = .ok "<custom>" :=
  claim10_missing_marker_empty ClaudeTool lcState rfl

end Tokyo
